import Mathlib

/-!
Verification of the KML-synchronized video-overlay engine of the `trace`
repository, as specified in its natural-language specification.

The development shallowly embeds (in Lean, over `ℚ` for timestamps and
coordinates, and `ℝ` for the haversine geometry) the parts of the source
that the specification's claims are about:

* `parseKml` timestamp/coordinate pairing (guiv2/server/src/lib/speedometerGenerator.ts);
* `getSpeedFromWorkspaceKml`, `getCoordAtTime` and `haversineKm` of
  `VideoOverlay` (videoOverlay.ts);
* the event-emission order of `VideoOverlay.start` / `encodeWithOverlay`
  handlers and of `EncodeWorker.emitProgress` (encodeWorker.ts);
* the temporary-file life cycle of the three overlay generators;
* the height computation of `generateInfoOverlayVideo`;
* the job-submission behaviour of `POST /api/encode` (index.ts).

Pure numeric/JS details (truthiness of `0` timestamps, `Math.round`
behaviour, `Math.min`/`Math.max`) are modelled faithfully.
-/

namespace Trace

/-! ## Data model: `KmlCoordinate` (workspace.ts) -/

/-- A parsed KML coordinate: `{lat, lon, alt?, timestamp?}` (epoch ms). -/
structure KmlCoordinate where
  lat : ℚ
  lon : ℚ
  alt : Option ℚ := none
  timestamp : Option ℚ := none
deriving DecidableEq

instance : Inhabited KmlCoordinate := ⟨⟨0, 0, none, none⟩⟩

/-- JS truthiness of `coord.timestamp`: present and not `0`. -/
def tsTruthy (c : KmlCoordinate) : Bool :=
  match c.timestamp with
  | none => false
  | some t => decide (t ≠ 0)

/-- The numeric value of a timestamp, defaulting to `0` when absent. -/
def tsVal (c : KmlCoordinate) : ℚ := c.timestamp.getD 0

/-- The speed unit option (`speedUnit: "kmh" | "ms"`). -/
inductive SpeedUnit where
  | kmh
  | ms
deriving DecidableEq

/-! ## InfoPanel height (`generateInfoOverlayVideo`, videoOverlay.ts 358-379)

The generator throws `"No overlay options enabled"` when no info option is
enabled; otherwise the panel height is `padding * 2 + lineCount * lineHeight`
with `padding = 12`, `lineHeight = 22`, and coordinates contributing two
lines. We model the computed height as the result value. -/

def generateInfoOverlayVideo (showAltitude showCoordinates showTime : Bool) :
    Except String ℕ :=
  if showAltitude = false ∧ showCoordinates = false ∧ showTime = false then
    Except.error "No overlay options enabled"
  else
    let padding := 12
    let lineHeight := 22
    let lineCount := (if showAltitude then 1 else 0) +
      (if showCoordinates then 2 else 0) + (if showTime then 1 else 0)
    Except.ok (padding * 2 + lineCount * lineHeight)

/-- The caller's guard (`encodeWithOverlay`, videoOverlay.ts 1048-1053): the
info overlay is generated only when at least one info option is enabled. -/
def hasInfoOverlay (showAltitude showCoordinates showTime : Bool) : Bool :=
  showAltitude || showCoordinates || showTime

/-! ## Job event streams (`VideoOverlay.start` / `encodeWithOverlay` handlers)

Each exit path of the encoder is straight-line code that performs a fixed
sequence of `emit` calls; we record those sequences as lists of events. -/

/-- An event on a job's stream. -/
inductive OverlayEvent where
  | progress (percent : ℚ)
  | log
  | done (success : Bool)
  | error
deriving DecidableEq

/-- Events emitted by the `catch` block of `VideoOverlay.start`
(videoOverlay.ts 144-148): an `error` followed by a `done` with
`success: false`. -/
def startCatchEvents : List OverlayEvent :=
  [OverlayEvent.error, OverlayEvent.done false]

/-- Events emitted by the ffmpeg `error` handler of `encodeWithOverlay`
(videoOverlay.ts 1201-1222), after the unconditional clip cleanup. -/
def encodeErrorHandlerEvents (stopped : Bool) : List OverlayEvent :=
  if stopped then [OverlayEvent.log]
  else [OverlayEvent.error, OverlayEvent.done false]

/-- Events emitted by the ffmpeg `end` handler of `encodeWithOverlay`
(videoOverlay.ts 1226-1254), after the unconditional clip cleanup. -/
def encodeEndHandlerEvents (stopped : Bool) : List OverlayEvent :=
  if stopped then [OverlayEvent.log]
  else [OverlayEvent.progress 100, OverlayEvent.done true, OverlayEvent.log]

/-- Terminal events are `done` and `error`. -/
def isTerminalEvent : OverlayEvent → Bool
  | OverlayEvent.done _ => true
  | OverlayEvent.error => true
  | _ => false

/-! ## Progress percent streams

`VideoOverlay`'s ffmpeg progress handler (videoOverlay.ts 1183-1198) maps a
raw encoder percent to `min 95 (20 + raw/100 * 75)` and emits it with no
monotonicity guard. `EncodeWorker.emitProgress` (encodeWorker.ts 276-283)
clamps `Math.round` of the request into `[0, 100]` and emits only when the
result exceeds the last emitted percent or equals `100`. -/

/-- `VideoOverlay`'s raw-percent mapping: `Math.min(95, 20 + (raw/100)*75)`. -/
def mappedProgress (raw : ℚ) : ℚ := min 95 (20 + raw / 100 * 75)

/-- The percents emitted by `VideoOverlay`'s progress handler for a stream of
raw encoder percents (no guard; nothing is emitted once stopped). -/
def progressHandlerPercents (stopped : Bool) (raws : List ℚ) : List ℚ :=
  if stopped then [] else raws.map mappedProgress

/-- JS `Math.round`: half-up rounding (towards `+∞` at `.5`). -/
def jsRound (q : ℚ) : ℤ := Int.floor (q + 1 / 2)

/-- `EncodeWorker.emitProgress`'s clamp: `max 0 (min 100 (round p))`. -/
def clampPct (q : ℚ) : ℤ := max 0 (min 100 (jsRound q))

/-- The percents emitted by `EncodeWorker.emitProgress` for a stream of
requested percents, threading `lastPercent` exactly as the source does. -/
def emitProgressFold (last : ℤ) : List ℚ → List ℤ
  | [] => []
  | p :: ps =>
    let pct := clampPct p
    if pct > last ∨ pct = 100 then pct :: emitProgressFold pct ps
    else emitProgressFold last ps

/-- A full `EncodeWorker` run starts from `lastPercent = 0`. -/
def emitProgressRun (reqs : List ℚ) : List ℤ := emitProgressFold 0 reqs

/-! ## Temporary-file life cycle of `encodeWithOverlay`

Each overlay generator creates a frames directory, writes frames, encodes
them into an alpha clip, and deletes the frames only after the clip encode
succeeded. `encodeWithOverlay` runs the enabled generators sequentially; its
`catch` block and both ffmpeg handlers (error and end, stopped or not)
unlink exactly the clip files whose path variables were assigned. -/

/-- The three overlay layers. -/
inductive OvLayer where
  | speed
  | info
  | map
deriving DecidableEq

/-- A temporary file belonging to one generator. -/
inductive TempFile where
  | frames (l : OvLayer)
  | clip (l : OvLayer)
deriving DecidableEq

/-- Outcome of one overlay generator: it either completes (frames written,
clip encoded, frames deleted) or throws after creating frame files and
before the frame cleanup. -/
inductive GenOutcome where
  | ok
  | fail
deriving DecidableEq

/-- Outcome of the final ffmpeg encode step. -/
inductive EncodeOutcome where
  | success
  | errored
  | stopped
deriving DecidableEq

/-- Run the enabled generators in order. Returns the temp files on disk
afterwards, the clip path variables that got assigned, and whether a
generator threw (in which case the later generators never run). -/
def runGens : List (Bool × OvLayer × GenOutcome) → List TempFile × List OvLayer × Bool
  | [] => ([], [], false)
  | (enabled, layer, o) :: rest =>
    if enabled = false then runGens rest
    else
      match o with
      | GenOutcome.ok =>
        let r := runGens rest
        (TempFile.clip layer :: r.1, layer :: r.2.1, r.2.2)
      | GenOutcome.fail => ([TempFile.frames layer], [], true)

/-- Whether a temp file is a clip whose path variable was assigned. -/
def isAssignedClip (assigned : List OvLayer) : TempFile → Bool
  | TempFile.clip l => assigned.contains l
  | TempFile.frames _ => false

/-- Whether a temp file is an overlay clip. -/
def isClipFile : TempFile → Bool
  | TempFile.clip _ => true
  | TempFile.frames _ => false

/-- The temp files remaining after one `encodeWithOverlay` run. Every exit
path (generator exception via `catch`, ffmpeg `error` handler, ffmpeg `end`
handler, stopped or not) unlinks exactly the assigned clip files, so the
encode outcome does not influence which files remain. -/
def encodeWithOverlayTempFiles (speedEnabled infoEnabled mapEnabled : Bool)
    (speedO infoO mapO : GenOutcome) (_enc : EncodeOutcome) : List TempFile :=
  let r := runGens [(speedEnabled, OvLayer.speed, speedO),
    (infoEnabled, OvLayer.info, infoO), (mapEnabled, OvLayer.map, mapO)]
  r.1.filter (fun f => !(isAssignedClip r.2.1 f))

/-! ## Job submission (`POST /api/encode`, index.ts 271-433)

The handler registers the job in the in-memory `jobs` map and calls
`startEncodeVideoWorker` unconditionally, which constructs the worker and
invokes `worker.start()` before the 202 response is sent. No concurrency
ceiling is consulted anywhere on this path. -/

/-- A registered job: status and whether its worker was started. -/
structure EncodeJob where
  id : ℕ
  running : Bool
  workerStarted : Bool
deriving DecidableEq

/-- Effect of one `POST /api/encode` on the job registry: the job is added
as `running` and its worker is started immediately. -/
def postEncode (jobs : List EncodeJob) (id : ℕ) : List EncodeJob :=
  jobs ++ [⟨id, true, true⟩]

/-- Number of jobs whose worker is started and still running. -/
def runningWorkerCount (jobs : List EncodeJob) : ℕ :=
  (jobs.filter (fun j => j.running && j.workerStarted)).length

/-! ## KML parsing (`parseKml`, speedometerGenerator.ts 510-699)

`parseKml` first extracts `<when>` timestamps and coordinate triples from
the parsed XML; an XML parser exception yields the empty summary `{}`.
When both lists are non-empty it pairs them: by index when the counts match
exactly, otherwise (with a logged warning) by linear interpolation of the
full `[min, max]` timestamp span across all coordinates. When no coordinate
was extracted, a regex fallback list is used. The summary records the
min/max/duration of the timestamps and the coordinates, with fields left
absent when the corresponding list is empty. -/

/-- A coordinate as extracted from `<coordinates>` text, before any
timestamp is attached. -/
structure RawCoord where
  lat : ℚ
  lon : ℚ
  alt : Option ℚ := none
deriving DecidableEq

/-- JS `Math.min(...list)` over a non-empty list (the value for `[]` is
irrelevant: the source only evaluates it on non-empty lists). -/
def listMin (l : List ℚ) : ℚ := l.foldl min (l.headD 0)

/-- JS `Math.max(...list)` over a non-empty list. -/
def listMax (l : List ℚ) : ℚ := l.foldl max (l.headD 0)

/-- A `RawCoord` with an attached timestamp. -/
def withTs (c : RawCoord) (t : Option ℚ) : KmlCoordinate :=
  ⟨c.lat, c.lon, c.alt, t⟩

instance : Inhabited RawCoord := ⟨⟨0, 0, none⟩⟩

/-- The timestamp-pairing step of `parseKml` (speedometerGenerator.ts
616-639). Returns the coordinate list (with timestamps attached when both
input lists are non-empty) and whether the count-mismatch warning was
logged. -/
def pairTimestamps (timestamps : List ℚ) (coords : List RawCoord) :
    List KmlCoordinate × Bool :=
  if timestamps.length > 0 ∧ coords.length > 0 then
    if timestamps.length = coords.length then
      (List.zipWith (fun c t => withTs c (some t)) coords timestamps, false)
    else
      let start := listMin timestamps
      let stop := listMax timestamps
      let duration := stop - start
      ((List.range coords.length).map (fun (i : ℕ) =>
        let fraction : ℚ :=
          if coords.length > 1 then (i : ℚ) / ((coords.length : ℚ) - 1) else 0
        withTs (coords.getD i default) (some (start + fraction * duration))),
        true)
  else (coords.map (fun c => withTs c none), false)

/-- The summary produced by `parseKml` (fields are absent when nothing was
extracted; `stop` embeds the source's `end` field). -/
structure KmlSummary where
  start : Option ℚ := none
  stop : Option ℚ := none
  durationMs : Option ℚ := none
  coords : Option (List KmlCoordinate) := none
deriving DecidableEq

/-- `parseKml` (speedometerGenerator.ts 510-699) as a function of the
extraction results: `parseOk` is whether the XML parser succeeded (an
exception returns `{}`), `timestamps` the parsed `<when>` values,
`coords` the coordinates parsed from `<coordinates>`/`<coord>` text, and
`gxFallback` the coordinates found by the `<gx:coord>` regex fallback that
runs when `coords` is empty. It never fails: absent data yields absent
summary fields. -/
def parseKml (parseOk : Bool) (timestamps : List ℚ) (coords : List RawCoord)
    (gxFallback : List RawCoord) : KmlSummary :=
  if parseOk = false then {}
  else
    let paired := (pairTimestamps timestamps coords).1
    let coords2 :=
      if paired.length = 0 then gxFallback.map (fun c => withTs c none)
      else paired
    { start := if timestamps.length > 0 then some (listMin timestamps) else none
      stop := if timestamps.length > 0 then some (listMax timestamps) else none
      durationMs :=
        if timestamps.length > 0 then some (listMax timestamps - listMin timestamps)
        else none
      coords := if coords2.length > 0 then some coords2 else none }

/-- The guard of `POST /api/encode` (index.ts 312-315): the request is
rejected with 400 when the workspace summary has no usable coordinates. -/
def encodeRouteAcceptsKml (s : KmlSummary) : Bool :=
  match s.coords with
  | none => false
  | some l => !l.isEmpty

/-! ## Position queries (`getCoordAtTime`, videoOverlay.ts 755-784)

`getCoordAtTime` maps the video time to a track timestamp relative to the
first coordinate that has a timestamp, then scans the whole list keeping
the coordinate whose timestamp minimizes the absolute difference to the
target (strict improvement, so the earliest minimizer is kept). -/

/-- One step of the closest-coordinate scan. -/
def bestStep (target : ℚ) (acc : Option (KmlCoordinate × ℚ))
    (c : KmlCoordinate) : Option (KmlCoordinate × ℚ) :=
  match c.timestamp with
  | none => acc
  | some t =>
    match acc with
    | none => some (c, |t - target|)
    | some (b, m) => if |t - target| < m then some (c, |t - target|) else some (b, m)

/-- The closest-coordinate scan of `getCoordAtTime` (`minDiff` starts at
`Infinity`, modelled by the `none` accumulator). -/
def closestCoord (target : ℚ) (coords : List KmlCoordinate) : Option KmlCoordinate :=
  (coords.foldl (bestStep target) none).map Prod.fst

/-- The target track timestamp of `getCoordAtTime`:
`kmlStart + (videoTimeSeconds + kmlOffsetSeconds) * 1000`, where `kmlStart`
is the timestamp of the first coordinate that has one. -/
def coordTargetTs (coords : List KmlCoordinate) (offset videoTime : ℚ) : ℚ :=
  match coords.find? (fun c => c.timestamp.isSome) with
  | some c => tsVal c + (videoTime + offset) * 1000
  | none => 0

/-- `getCoordAtTime` (videoOverlay.ts 755-784). -/
def getCoordAtTime (coords : List KmlCoordinate) (offset videoTime : ℚ) :
    Option KmlCoordinate :=
  if coords.isEmpty then none
  else if (coords.find? (fun c => c.timestamp.isSome)).isSome then
    closestCoord (coordTargetTs coords offset videoTime) coords
  else none

/-! ## Speed queries (`getSpeedFromWorkspaceKml`, videoOverlay.ts 918-997)

The speed query finds the last index whose (truthy) timestamp is at most
the target (scanning downwards from the end, defaulting to `0`), and, when
a following node exists and the time difference is positive, returns the
haversine distance between the two nodes divided by that difference. -/

/-- The loop guard `coords[i].timestamp && coords[i].timestamp <= target`. -/
def okAt (coords : List KmlCoordinate) (target : ℚ) (i : ℕ) : Bool :=
  tsTruthy (coords.getD i default) && decide (tsVal (coords.getD i default) ≤ target)

/-- The downward scan `for (let i = length - 1; i >= 0; i--) ... prevIdx = i;
break` with `prevIdx` initialized to `0`. -/
def scanDown (coords : List KmlCoordinate) (target : ℚ) : ℕ → ℕ
  | 0 => 0
  | i + 1 => if okAt coords target (i + 1) then i + 1 else scanDown coords target i

/-- The selection logic of `getSpeedFromWorkspaceKml`: which pair of nodes
(and which time difference, in seconds) the speed is computed from, or
`none` on the paths that return `undefined`. -/
def getSpeedSel (coords : List KmlCoordinate) (offset videoTime : ℚ) :
    Option (KmlCoordinate × KmlCoordinate × ℚ) :=
  if coords.isEmpty then none
  else
    match coords.find? tsTruthy with
    | none => none
    | some firstCoord =>
      let target := tsVal firstCoord + (videoTime + offset) * 1000
      let p := scanDown coords target (coords.length - 1)
      let prevNode := coords.getD p default
      if tsTruthy prevNode = false then none
      else if p + 1 < coords.length then
        let nextNode := coords.getD (p + 1) default
        if tsTruthy nextNode && tsTruthy prevNode then
          let timeDiffSeconds := (tsVal nextNode - tsVal prevNode) / 1000
          if 0 < timeDiffSeconds then some (prevNode, nextNode, timeDiffSeconds)
          else none
        else none
      else none

/-! ## Haversine distance (`haversineKm`, videoOverlay.ts 1003-1023) -/

/-- JS `Math.atan2` over the reals. -/
noncomputable def atan2 (y x : ℝ) : ℝ :=
  if 0 < x then Real.arctan (y / x)
  else if x < 0 ∧ 0 ≤ y then Real.arctan (y / x) + Real.pi
  else if x < 0 then Real.arctan (y / x) - Real.pi
  else if 0 < y then Real.pi / 2
  else if y < 0 then -(Real.pi / 2)
  else 0

/-- `haversineKm` (videoOverlay.ts 1003-1023): great-circle distance in km,
Earth radius 6371 km. -/
noncomputable def haversineKm (lat1 lon1 lat2 lon2 : ℝ) : ℝ :=
  let dLat := (lat2 - lat1) * Real.pi / 180
  let dLon := (lon2 - lon1) * Real.pi / 180
  let a := Real.sin (dLat / 2) * Real.sin (dLat / 2) +
    Real.cos (lat1 * Real.pi / 180) * Real.cos (lat2 * Real.pi / 180) *
    Real.sin (dLon / 2) * Real.sin (dLon / 2)
  let c := 2 * atan2 (Real.sqrt a) (Real.sqrt (1 - a))
  6371 * c

/-- The value computed by `getSpeedFromWorkspaceKml` once a node pair and a
positive time difference (seconds) are selected:
`(distanceKm / timeDiffSeconds) * 3600` in km/h, divided by `3.6` when the
`ms` unit is selected. -/
noncomputable def speedValue (unit : SpeedUnit) (p q : KmlCoordinate)
    (timeDiffSeconds : ℚ) : ℝ :=
  let speedKmh :=
    haversineKm (p.lat : ℝ) (p.lon : ℝ) (q.lat : ℝ) (q.lon : ℝ) /
      (timeDiffSeconds : ℝ) * 3600
  match unit with
  | SpeedUnit.ms => speedKmh / 3.6
  | SpeedUnit.kmh => speedKmh

/-- `getSpeedFromWorkspaceKml` (videoOverlay.ts 918-997). -/
noncomputable def getSpeedFromWorkspaceKml (unit : SpeedUnit)
    (coords : List KmlCoordinate) (offset videoTime : ℚ) : Option ℝ :=
  (getSpeedSel coords offset videoTime).map fun pr =>
    speedValue unit pr.1 pr.2.1 pr.2.2

/-! ## Specification predicates for the track queries -/

/-- Every coordinate carries a strictly positive timestamp (the realistic
situation: epoch milliseconds; it makes JS truthiness agree with
presence). -/
def allPosTs (coords : List KmlCoordinate) : Prop :=
  ∀ c ∈ coords, 0 < tsVal c ∧ c.timestamp.isSome = true

instance (coords : List KmlCoordinate) : Decidable (allPosTs coords) :=
  List.decidableBAll _ coords

/-- Coordinates are sorted by timestamp (as `VideoOverlay.start` ensures by
sorting on load, videoOverlay.ts 99-103). -/
def sortedByTs (coords : List KmlCoordinate) : Prop :=
  List.Pairwise (fun a b => tsVal a ≤ tsVal b) coords

instance (coords : List KmlCoordinate) : Decidable (sortedByTs coords) :=
  List.instDecidablePairwise coords

/-- The target track timestamp used by the speed query: the first
coordinate's timestamp plus the offset-adjusted video time in ms (under
`allPosTs` the first truthy coordinate is the head). -/
def kmlTarget (coords : List KmlCoordinate) (offset videoTime : ℚ) : ℚ :=
  tsVal (coords.headD default) + (videoTime + offset) * 1000

/-- `p` is the last index whose (truthy) timestamp is at most `target`. -/
def isLastLE (coords : List KmlCoordinate) (target : ℚ) (p : ℕ) : Prop :=
  p < coords.length ∧ okAt coords target p = true ∧
    ∀ j < coords.length, okAt coords target j = true → j ≤ p

instance (coords : List KmlCoordinate) (target : ℚ) (p : ℕ) :
    Decidable (isLastLE coords target p) := by
  unfold isLastLE
  infer_instance

/-- `optBetween lo hi o` holds when `o` carries a value strictly between
`lo` and `hi`. -/
def optBetween (lo hi : ℝ) : Option ℝ → Prop
  | none => False
  | some v => lo < v ∧ v < hi

/-! ## The spec's Scenario A track

Two samples 10 s apart at latitude 48, longitudes 2 and 2.01 (timestamps
are epoch ms; the base `1000000` is arbitrary but positive). The query
`SpeedAt(5000ms)` is `videoTimeSeconds = 5` with zero offset. -/

/-- Scenario A: samples at t=0s `(48.0, 2.0)` and t=10s `(48.0, 2.01)`. -/
def scenarioCoords : List KmlCoordinate :=
  [⟨48, 2, none, some 1000000⟩, ⟨48, 201 / 100, none, some 1010000⟩]

/-- A two-sample track with timestamps 0 ms and 1000 ms (used to query the
position at 900 ms). -/
def pastFutureCoords : List KmlCoordinate :=
  [⟨0, 0, none, some 0⟩, ⟨1, 1, none, some 1000⟩]

/-- A two-sample track whose samples share the timestamp 10000 ms (used to
query before the track's start). -/
def eqTsCoords : List KmlCoordinate :=
  [⟨0, 0, none, some 10000⟩, ⟨1, 1, none, some 10000⟩]

/-! ## Helper lemmas for the `EncodeWorker` progress guard -/

/-- The clamp keeps percents at most `100`. -/
lemma clampPct_le (q : ℚ) : clampPct q ≤ 100 := by
  unfold clampPct
  rcases le_total (0 : ℤ) (min 100 (jsRound q)) with h | h
  · rw [max_eq_right h]
    exact min_le_left _ _
  · rw [max_eq_left h]
    norm_num

/-- Every percent emitted from state `last ≤ 100` is between `last` and
`100`. -/
lemma emitProgressFold_mem_bounds (l : List ℚ) :
    ∀ last : ℤ, last ≤ 100 → ∀ x ∈ emitProgressFold last l, last ≤ x ∧ x ≤ 100 := by
  induction l with
  | nil => intro last _ x hx; simp [emitProgressFold] at hx
  | cons p ps ih =>
    intro last hlast x hx
    rw [emitProgressFold] at hx
    by_cases hg : clampPct p > last ∨ clampPct p = 100
    · rw [if_pos hg] at hx
      rcases List.mem_cons.1 hx with rfl | hx'
      · refine ⟨?_, clampPct_le p⟩
        rcases hg with hg | hg
        · exact hg.le
        · omega
      · have hc : clampPct p ≤ 100 := clampPct_le p
        have := ih (clampPct p) hc x hx'
        constructor
        · rcases hg with hg | hg
          · exact le_trans hg.le this.1
          · omega
        · exact this.2
    · rw [if_neg hg] at hx
      exact ih last hlast x hx


/-- The emitted percents from any state `last ≤ 100` are pairwise
non-decreasing. -/
lemma emitProgressFold_pairwise (l : List ℚ) :
    ∀ last : ℤ, last ≤ 100 →
      List.Pairwise (· ≤ ·) (emitProgressFold last l) := by
  induction l with
  | nil => intro last _; simp [emitProgressFold]
  | cons p ps ih =>
    intro last hlast
    rw [emitProgressFold]
    by_cases hg : clampPct p > last ∨ clampPct p = 100
    · rw [if_pos hg]
      refine List.pairwise_cons.2 ⟨?_, ih (clampPct p) (clampPct_le p)⟩
      intro x hx
      exact (emitProgressFold_mem_bounds ps (clampPct p) (clampPct_le p) x hx).1
    · rw [if_neg hg]
      exact ih last hlast

/-! ## Claim C5: terminal events -/

/-- C5 counterexample: the claim that exactly one terminal event (`Done` or
`Error`, never both) is emitted per job and that no further events follow it
is false on the code. On the failure path (ffmpeg `error` handler with
`stopped = false`, videoOverlay.ts 1219-1220, and likewise the `catch` of
`VideoOverlay.start`, 145-146) an `error` event is followed by a `done`
event — two terminal events; and on the success path the final
`Video saved to:` log event is emitted after the terminal `done`
(videoOverlay.ts 1248-1252). -/
theorem terminal_events_cex :
    (encodeErrorHandlerEvents false).filter isTerminalEvent =
      [OverlayEvent.error, OverlayEvent.done false] ∧
    startCatchEvents.filter isTerminalEvent =
      [OverlayEvent.error, OverlayEvent.done false] ∧
    encodeEndHandlerEvents false =
      [OverlayEvent.progress 100, OverlayEvent.done true, OverlayEvent.log] := by
  refine ⟨rfl, rfl, rfl⟩

/-- C5 amended: on the success path exactly one terminal event (`done` with
`success: true`) is emitted, but a trailing log event follows it; on the
failure paths (start `catch`, ffmpeg `error` handler) an `error` event is
immediately followed by a `done {success: false}` event, so failure paths
carry two terminal events; when the job was stopped, the handlers emit only
a log event and no terminal at all. -/
theorem terminal_events_per_path :
    ((encodeEndHandlerEvents false).filter isTerminalEvent = [OverlayEvent.done true]) ∧
    ((encodeEndHandlerEvents false).getLast? = some OverlayEvent.log) ∧
    ((encodeErrorHandlerEvents false).filter isTerminalEvent =
      [OverlayEvent.error, OverlayEvent.done false]) ∧
    (startCatchEvents.filter isTerminalEvent =
      [OverlayEvent.error, OverlayEvent.done false]) ∧
    ((encodeEndHandlerEvents true).filter isTerminalEvent = []) ∧
    ((encodeErrorHandlerEvents true).filter isTerminalEvent = []) := by
  refine ⟨rfl, rfl, rfl, rfl, rfl, rfl⟩

/-! ## Claim C6: progress monotonicity -/

/-- C6 counterexample: `VideoOverlay`'s progress handler applies
`min 95 (20 + raw * 0.75)` with no monotonicity guard (videoOverlay.ts
1183-1198), so the raw encoder percent sequence `[50, 40]` produces the
emitted percents `[57.5, 50]`, where the second `Progress` event carries a
lower percent than the first — refuting the claim that percents are
monotonically non-decreasing within a job. -/
theorem progress_regression_cex :
    progressHandlerPercents false [50, 40] = [115 / 2, 50] ∧
    ¬ List.Pairwise (· ≤ ·) (progressHandlerPercents false [50, 40]) := by
  constructor
  · norm_num [progressHandlerPercents, mappedProgress]
  · intro h
    rw [show progressHandlerPercents false [50, 40] = [115 / 2, 50] by
      norm_num [progressHandlerPercents, mappedProgress]] at h
    have := List.pairwise_cons.1 h
    have h2 := this.1 50 (by simp)
    norm_num at h2

/-- C6 amended: `EncodeWorker.emitProgress` (encodeWorker.ts 276-283) does
enforce monotonicity — for every stream of requested percents the emitted
percents are pairwise non-decreasing; `VideoOverlay`'s handler has no such
guard, but its mapping `min 95 (20 + raw * 0.75)` is monotone in the raw
percent, so its emitted percents are non-decreasing exactly when the raw
encoder percents are. -/
theorem progress_monotone_guarded :
    (∀ reqs : List ℚ, List.Pairwise (· ≤ ·) (emitProgressRun reqs)) ∧
    (∀ a b : ℚ, a ≤ b → mappedProgress a ≤ mappedProgress b) ∧
    (∀ raws : List ℚ, List.Pairwise (· ≤ ·) raws →
      List.Pairwise (· ≤ ·) (progressHandlerPercents false raws)) := by
  refine ⟨?_, ?_, ?_⟩
  · intro reqs
    exact emitProgressFold_pairwise reqs 0 (by norm_num)
  · intro a b hab
    unfold mappedProgress
    have : 20 + a / 100 * 75 ≤ 20 + b / 100 * 75 := by linarith
    exact min_le_min le_rfl this
  · intro raws h
    simp only [progressHandlerPercents, Bool.false_eq_true, if_false]
    refine List.Pairwise.map _ ?_ h
    intro a b hab
    unfold mappedProgress
    have : 20 + a / 100 * 75 ≤ 20 + b / 100 * 75 := by linarith
    exact min_le_min le_rfl this

/-- C6 witness: the guarded worker emits a monotone stream on a concrete
non-monotone request list, and the mapping is monotone at `40 ≤ 50`. -/
theorem progress_monotone_guarded_witness :
    List.Pairwise (· ≤ ·) (emitProgressRun [30, 20, 50, 50, 100, 90]) ∧
    ((40 : ℚ) ≤ 50 ∧ mappedProgress 40 ≤ mappedProgress 50) :=
  ⟨progress_monotone_guarded.1 [30, 20, 50, 50, 100, 90],
    by norm_num, progress_monotone_guarded.2.1 40 50 (by norm_num)⟩

/-! ## Claim C7: temporary-file cleanup -/

/-- C7 counterexample: with the speed and info layers enabled, the speed
generator succeeding and the info generator throwing during frame
generation, the run ends (through `encodeWithOverlay`'s `catch`) with the
info layer's frame files still on disk — the frame cleanup inside each
generator runs only after that generator's clip encode succeeds
(videoOverlay.ts 339-344, 737-742), and the `catch`/handlers unlink only
the three clip path variables (1201-1281). This refutes the claim that all
temporary frame files are deleted on every exit path. -/
theorem frames_leak_cex :
    encodeWithOverlayTempFiles true true false GenOutcome.ok GenOutcome.fail
      GenOutcome.ok EncodeOutcome.success = [TempFile.frames OvLayer.info] ∧
    encodeWithOverlayTempFiles true true false GenOutcome.ok GenOutcome.fail
      GenOutcome.ok EncodeOutcome.success ≠ [] := by
  refine ⟨by decide, by decide⟩

/-- C7 amended: on every exit path (success, encoding error, exception
during overlay generation, cancellation) all overlay clip files are
deleted; the temporary frame files of a generator are deleted only when
that generator completes its clip, so when all enabled generators complete,
zero overlay temp files remain regardless of how the encode step ends
(success, error, or cancellation), while a generator failure leaves that
generator's frame files behind. -/
theorem temp_cleanup_spec :
    (∀ (se ie me : Bool) (so io mo : GenOutcome) (enc : EncodeOutcome),
      (encodeWithOverlayTempFiles se ie me so io mo enc).filter isClipFile = []) ∧
    (∀ (se ie me : Bool) (enc : EncodeOutcome),
      encodeWithOverlayTempFiles se ie me GenOutcome.ok GenOutcome.ok
        GenOutcome.ok enc = []) := by
  constructor
  · intro se ie me so io mo enc
    cases se <;> cases ie <;> cases me <;> cases so <;> cases io <;> cases mo <;>
      cases enc <;> rfl
  · intro se ie me enc
    cases se <;> cases ie <;> cases me <;> cases enc <;> rfl

/-! ## Claim C8: InfoPanel with zero enabled options -/

/-- C8 counterexample: rendering the info panel with zero enabled options
does not yield an empty zero-height panel — `generateInfoOverlayVideo`
throws `"No overlay options enabled"` (videoOverlay.ts 362-365). -/
theorem infoPanel_zero_options_cex :
    generateInfoOverlayVideo false false false =
      Except.error "No overlay options enabled" := rfl

/-- C8 amended: with zero enabled options `generateInfoOverlayVideo` fails
with the error `"No overlay options enabled"` (its caller never invokes it
then: `hasInfoOverlay` is false, so the layer is skipped); with at least
one enabled option it succeeds and the panel height is
`2 * padding + lines * lineHeight = 24 + 22 * lines`, with coordinates
contributing two lines — computed from the enabled options, not fixed. -/
theorem infoPanel_height_spec :
    (∀ a c t : Bool, hasInfoOverlay a c t = false →
      generateInfoOverlayVideo a c t = Except.error "No overlay options enabled") ∧
    (∀ a c t : Bool, hasInfoOverlay a c t = true →
      generateInfoOverlayVideo a c t =
        Except.ok (24 + 22 * ((if a then 1 else 0) + (if c then 2 else 0) +
          (if t then 1 else 0)))) := by
  constructor
  · intro a c t
    cases a <;> cases c <;> cases t <;>
      simp [hasInfoOverlay, generateInfoOverlayVideo]
  · intro a c t
    cases a <;> cases c <;> cases t <;>
      simp [hasInfoOverlay, generateInfoOverlayVideo]

/-- C8 witness: the two branches at concrete option values: all options off
(error) and only coordinates on (height `24 + 44 = 68`). -/
theorem infoPanel_height_spec_witness :
    (hasInfoOverlay false false false = false ∧
      generateInfoOverlayVideo false false false =
        Except.error "No overlay options enabled") ∧
    (hasInfoOverlay false true false = true ∧
      generateInfoOverlayVideo false true false = Except.ok 68) :=
  ⟨⟨rfl, infoPanel_height_spec.1 false false false rfl⟩,
    ⟨rfl, by have := infoPanel_height_spec.2 false true false rfl; simpa using this⟩⟩

/-! ## Claim C9: concurrency ceiling -/

/-- C9: the claim is right about the intended behaviour (README and
Dockerfile document `MAX_CONCURRENT_JOBS=3`, WORKPLAN lists its enforcement
as still to implement), but the code has no ceiling: `POST /api/encode`
(index.ts 271-433) registers the job and starts its worker unconditionally
before responding, so two submissions under a ceiling of `1` both have
running workers immediately — `runningWorkerCount` is `2`, exceeding the
ceiling. -/
theorem concurrent_jobs_unbounded :
    runningWorkerCount (postEncode (postEncode [] 0) 1) = 2 ∧
    1 < runningWorkerCount (postEncode (postEncode [] 0) 1) := by
  refine ⟨by decide, by decide⟩

/-! ## Claim C3: timestamp/coordinate pairing -/

/-- C3: when both timestamps and coordinates were parsed, `parseKml` pairs
them by index exactly when the counts are equal (no warning); when the
counts differ it assigns coordinate `i` the timestamp
`min + (i / (n - 1)) * (max - min)` over all `n` coordinates (a single
coordinate getting `min`), logs the degradation, gives coordinate `0` the
minimum and the last coordinate the maximum, and in both branches
preserves every coordinate's position data (speedometerGenerator.ts
616-639). -/
theorem parseKml_pairing (tss : List ℚ) (cs : List RawCoord)
    (h1 : 0 < tss.length) (h2 : 0 < cs.length) :
    ((pairTimestamps tss cs).1.length = cs.length) ∧
    (∀ i, i < cs.length →
      ((pairTimestamps tss cs).1.getD i default).lat = (cs.getD i default).lat ∧
      ((pairTimestamps tss cs).1.getD i default).lon = (cs.getD i default).lon ∧
      ((pairTimestamps tss cs).1.getD i default).alt = (cs.getD i default).alt) ∧
    (tss.length = cs.length →
      (pairTimestamps tss cs).2 = false ∧
      ∀ i, i < cs.length →
        ((pairTimestamps tss cs).1.getD i default).timestamp = some (tss.getD i 0)) ∧
    (tss.length ≠ cs.length →
      (pairTimestamps tss cs).2 = true ∧
      (∀ i, i < cs.length →
        ((pairTimestamps tss cs).1.getD i default).timestamp =
          some (listMin tss +
            (if 1 < cs.length then (i : ℚ) / ((cs.length : ℚ) - 1) else 0) *
            (listMax tss - listMin tss))) ∧
      ((pairTimestamps tss cs).1.getD 0 default).timestamp = some (listMin tss) ∧
      (2 ≤ cs.length →
        ((pairTimestamps tss cs).1.getD (cs.length - 1) default).timestamp =
          some (listMax tss))) := by
  have hcond : tss.length > 0 ∧ cs.length > 0 := ⟨h1, h2⟩
  by_cases heq : tss.length = cs.length
  · have hpair : pairTimestamps tss cs =
        (List.zipWith (fun c t => withTs c (some t)) cs tss, false) := by
      unfold pairTimestamps
      rw [if_pos hcond, if_pos heq]
    have hlen : (List.zipWith (fun c t => withTs c (some t)) cs tss).length =
        cs.length := by
      rw [List.length_zipWith, heq, min_self]
    refine ⟨by rw [hpair]; exact hlen, ?_, ?_, fun hne => absurd heq hne⟩
    · intro i hi
      rw [hpair]
      have hiz : i < (List.zipWith (fun c t => withTs c (some t)) cs tss).length := by
        rw [hlen]; exact hi
      rw [List.getD_eq_getElem _ _ hiz, List.getElem_zipWith,
        List.getD_eq_getElem _ _ hi]
      exact ⟨rfl, rfl, rfl⟩
    · intro _
      refine ⟨by rw [hpair], ?_⟩
      intro i hi
      rw [hpair]
      have hiz : i < (List.zipWith (fun c t => withTs c (some t)) cs tss).length := by
        rw [hlen]; exact hi
      rw [List.getD_eq_getElem _ _ hiz, List.getElem_zipWith,
        List.getD_eq_getElem _ _ (heq ▸ hi)]
      rfl
  · have hpair : pairTimestamps tss cs =
        ((List.range cs.length).map (fun (i : ℕ) =>
          withTs (cs.getD i default)
            (some (listMin tss +
              (if cs.length > 1 then (i : ℚ) / ((cs.length : ℚ) - 1) else 0) *
              (listMax tss - listMin tss)))), true) := by
      unfold pairTimestamps
      rw [if_pos hcond, if_neg heq]
    have hlen : ((List.range cs.length).map (fun (i : ℕ) =>
        withTs (cs.getD i default)
          (some (listMin tss +
            (if cs.length > 1 then (i : ℚ) / ((cs.length : ℚ) - 1) else 0) *
            (listMax tss - listMin tss))))).length = cs.length := by
      rw [List.length_map, List.length_range]
    have hget : ∀ i, i < cs.length →
        (pairTimestamps tss cs).1.getD i default =
          withTs (cs.getD i default)
            (some (listMin tss +
              (if cs.length > 1 then (i : ℚ) / ((cs.length : ℚ) - 1) else 0) *
              (listMax tss - listMin tss))) := by
      intro i hi
      rw [hpair]
      have hiz : i < ((List.range cs.length).map (fun (i : ℕ) =>
          withTs (cs.getD i default)
            (some (listMin tss +
              (if cs.length > 1 then (i : ℚ) / ((cs.length : ℚ) - 1) else 0) *
              (listMax tss - listMin tss))))).length := by
        rw [hlen]; exact hi
      rw [List.getD_eq_getElem _ _ hiz, List.getElem_map, List.getElem_range]
    refine ⟨by rw [hpair]; exact hlen, ?_, fun h => absurd h heq, ?_⟩
    · intro i hi
      rw [hget i hi]
      exact ⟨rfl, rfl, rfl⟩
    · intro _
      refine ⟨by rw [hpair], ?_, ?_, ?_⟩
      · intro i hi
        rw [hget i hi]
        rfl
      · rw [hget 0 h2]
        have : (if cs.length > 1 then (0 : ℚ) / ((cs.length : ℚ) - 1) else 0) = 0 := by
          by_cases h : cs.length > 1 <;> simp [h]
        simp [withTs, this]
      · intro hlen2
        rw [hget (cs.length - 1) (by omega)]
        have hgt : cs.length > 1 := by omega
        have hne0 : ((cs.length : ℚ) - 1) ≠ 0 := by
          have : (1 : ℚ) < (cs.length : ℚ) := by exact_mod_cast hgt
          linarith
        have hcast : ((cs.length - 1 : ℕ) : ℚ) = (cs.length : ℚ) - 1 := by
          have : (1 : ℕ) ≤ cs.length := by omega
          push_cast [Nat.cast_sub this]
          ring
        simp only [withTs, if_pos hgt, hcast, div_self hne0]
        norm_num

/-- C3 witness: 5 timestamps against 10 coordinates fall back to even
linear interpolation across all 10 points spanning `[min, max]`; the
instance here checks the mismatch branch at indices 0 and 9. -/
theorem parseKml_pairing_witness :
    (0 < ([10, 40, 20, 30, 50] : List ℚ).length) ∧
    (0 < (List.replicate 10 (⟨1, 2, none⟩ : RawCoord)).length) ∧
    (([10, 40, 20, 30, 50] : List ℚ).length ≠
      (List.replicate 10 (⟨1, 2, none⟩ : RawCoord)).length) ∧
    ((pairTimestamps [10, 40, 20, 30, 50] (List.replicate 10 ⟨1, 2, none⟩)).2 = true ∧
      (∀ i, i < (List.replicate 10 (⟨1, 2, none⟩ : RawCoord)).length →
        ((pairTimestamps [10, 40, 20, 30, 50]
            (List.replicate 10 ⟨1, 2, none⟩)).1.getD i default).timestamp =
          some (listMin [10, 40, 20, 30, 50] +
            (if 1 < (List.replicate 10 (⟨1, 2, none⟩ : RawCoord)).length then
              (i : ℚ) / (((List.replicate 10 (⟨1, 2, none⟩ : RawCoord)).length : ℚ) - 1)
            else 0) *
            (listMax [10, 40, 20, 30, 50] - listMin [10, 40, 20, 30, 50]))) ∧
      ((pairTimestamps [10, 40, 20, 30, 50]
          (List.replicate 10 ⟨1, 2, none⟩)).1.getD 0 default).timestamp =
        some (listMin [10, 40, 20, 30, 50]) ∧
      (2 ≤ (List.replicate 10 (⟨1, 2, none⟩ : RawCoord)).length →
        ((pairTimestamps [10, 40, 20, 30, 50]
            (List.replicate 10 ⟨1, 2, none⟩)).1.getD
              ((List.replicate 10 (⟨1, 2, none⟩ : RawCoord)).length - 1)
              default).timestamp =
          some (listMax [10, 40, 20, 30, 50]))) :=
  ⟨by norm_num, by norm_num, by norm_num,
    (parseKml_pairing [10, 40, 20, 30, 50] (List.replicate 10 ⟨1, 2, none⟩)
      (by norm_num) (by norm_num)).2.2.2 (by norm_num)⟩

/-! ## Claim C4: behaviour when nothing can be extracted -/

/-- C4 counterexample: `parseKml` does not fail with a `MalformedTrack`
error when no coordinate sequence can be extracted — it has no error
channel at all. On an unparseable input (XML parser exception,
speedometerGenerator.ts 525-532) it succeeds returning the empty summary
`{}`, whose `coords` field is absent; the encode route then rejects such a
workspace with a 400, not the parser. -/
theorem parseKml_no_error_cex :
    parseKml false [] [] [] = {} ∧
    (parseKml false [] [] []).coords = none ∧
    encodeRouteAcceptsKml (parseKml false [] [] []) = false := by
  refine ⟨rfl, rfl, rfl⟩

/-- C4 amended: for every input from which no coordinate sequence can be
extracted (including unparseable XML), `parseKml` succeeds and returns a
summary with no `coords` field rather than failing; the absence of
coordinates is detected by the callers (the `POST /api/encode` guard
rejects such a workspace, index.ts 312-315). -/
theorem parseKml_empty_on_malformed :
    (∀ (tss : List ℚ) (cs gx : List RawCoord), parseKml false tss cs gx = {}) ∧
    (∀ tss : List ℚ, (parseKml true tss [] []).coords = none) ∧
    (∀ tss : List ℚ, encodeRouteAcceptsKml (parseKml true tss [] []) = false) ∧
    encodeRouteAcceptsKml {} = false := by
  refine ⟨?_, ?_, ?_, rfl⟩
  · intro tss cs gx
    rfl
  · intro tss
    simp [parseKml, pairTimestamps]
  · intro tss
    simp [parseKml, pairTimestamps, encodeRouteAcceptsKml]

/-! ## Claim C2: position queries -/

/-- `bestStep` skips coordinates without a timestamp. -/
lemma bestStep_no_ts (target : ℚ) (acc : Option (KmlCoordinate × ℚ))
    (c : KmlCoordinate) (h : c.timestamp = none) : bestStep target acc c = acc := by
  simp [bestStep, h]

/-- `bestStep` from the empty accumulator records the coordinate. -/
lemma bestStep_first (target : ℚ) (c : KmlCoordinate) (t : ℚ)
    (h : c.timestamp = some t) : bestStep target none c = some (c, |t - target|) := by
  simp [bestStep, h]

/-- `bestStep` replaces the accumulator on strict improvement. -/
lemma bestStep_improve (target : ℚ) (c b : KmlCoordinate) (t m : ℚ)
    (h : c.timestamp = some t) (hlt : |t - target| < m) :
    bestStep target (some (b, m)) c = some (c, |t - target|) := by
  simp [bestStep, h, hlt]

/-- `bestStep` keeps the accumulator otherwise. -/
lemma bestStep_keep (target : ℚ) (c b : KmlCoordinate) (t m : ℚ)
    (h : c.timestamp = some t) (hlt : ¬|t - target| < m) :
    bestStep target (some (b, m)) c = some (b, m) := by
  simp [bestStep, h, hlt]

/-- One-step facts: whenever `bestStep` produces `some (b0, m0)`, the result
either is the old accumulator or records the new coordinate; its difference
is at most the coordinate's difference and at most the old accumulator's. -/
lemma bestStep_spec (target : ℚ) (acc : Option (KmlCoordinate × ℚ))
    (c b0 : KmlCoordinate) (m0 : ℚ) (h0 : bestStep target acc c = some (b0, m0)) :
    (acc = some (b0, m0) ∨
      (b0 = c ∧ ∃ t, c.timestamp = some t ∧ m0 = |t - target|)) ∧
    (∀ t, c.timestamp = some t → m0 ≤ |t - target|) ∧
    (∀ b1 m1, acc = some (b1, m1) → m0 ≤ m1) := by
  cases hts : c.timestamp with
  | none =>
    rw [bestStep_no_ts target acc c hts] at h0
    refine ⟨Or.inl h0, ?_, ?_⟩
    · intro t ht
      cases ht
    · intro b1 m1 h1
      rw [h0] at h1
      simp only [Option.some.injEq, Prod.mk.injEq] at h1
      exact le_of_eq h1.2
  | some t =>
    cases hac : acc with
    | none =>
      rw [hac, bestStep_first target c t hts] at h0
      simp only [Option.some.injEq, Prod.mk.injEq] at h0
      refine ⟨Or.inr ⟨h0.1.symm, t, rfl, h0.2.symm⟩, ?_, ?_⟩
      · intro t' ht'
        injection ht' with ht'
        rw [← ht', ← h0.2]
      · intro b1 m1 h1
        cases h1
    | some pr =>
      obtain ⟨b1, m1⟩ := pr
      by_cases hlt : |t - target| < m1
      · rw [hac, bestStep_improve target c b1 t m1 hts hlt] at h0
        simp only [Option.some.injEq, Prod.mk.injEq] at h0
        refine ⟨Or.inr ⟨h0.1.symm, t, rfl, h0.2.symm⟩, ?_, ?_⟩
        · intro t' ht'
          injection ht' with ht'
          rw [← ht', ← h0.2]
        · intro b2 m2 h2
          simp only [Option.some.injEq, Prod.mk.injEq] at h2
          rw [← h0.2, ← h2.2]
          exact hlt.le
      · rw [hac, bestStep_keep target c b1 t m1 hts hlt] at h0
        simp only [Option.some.injEq, Prod.mk.injEq] at h0
        refine ⟨Or.inl (by rw [h0.1, h0.2]), ?_, ?_⟩
        · intro t' ht'
          injection ht' with ht'
          rw [← ht', ← h0.2]
          exact le_of_not_lt hlt
        · intro b2 m2 h2
          simp only [Option.some.injEq, Prod.mk.injEq] at h2
          rw [← h0.2, ← h2.2]

/-- `bestStep` never turns a `some` accumulator into `none`, and produces
`some` from `none` whenever the coordinate has a timestamp. -/
lemma bestStep_ne_none (target : ℚ) (acc : Option (KmlCoordinate × ℚ))
    (c : KmlCoordinate) (h : bestStep target acc c = none) :
    acc = none ∧ c.timestamp = none := by
  cases hts : c.timestamp with
  | none =>
    rw [bestStep_no_ts target acc c hts] at h
    exact ⟨h, rfl⟩
  | some t =>
    cases hac : acc with
    | none =>
      rw [hac, bestStep_first target c t hts] at h
      cases h
    | some pr =>
      obtain ⟨b1, m1⟩ := pr
      by_cases hlt : |t - target| < m1
      · rw [hac, bestStep_improve target c b1 t m1 hts hlt] at h
        cases h
      · rw [hac, bestStep_keep target c b1 t m1 hts hlt] at h
        cases h

/-- Facts about the closest-coordinate fold: where the result comes from,
that its recorded difference is minimal over the scanned list, and that it
never exceeds the accumulator's difference. -/
lemma bestStep_fold_spec (target : ℚ) :
    ∀ (l : List KmlCoordinate) (acc : Option (KmlCoordinate × ℚ))
      (b : KmlCoordinate) (m : ℚ),
      l.foldl (bestStep target) acc = some (b, m) →
      (acc = some (b, m) ∨
        (b ∈ l ∧ ∃ t, b.timestamp = some t ∧ m = |t - target|)) ∧
      (∀ c ∈ l, ∀ t, c.timestamp = some t → m ≤ |t - target|) ∧
      (∀ b0 m0, acc = some (b0, m0) → m ≤ m0) := by
  intro l
  induction l with
  | nil =>
    intro acc b m h
    simp only [List.foldl_nil] at h
    refine ⟨Or.inl h, ?_, ?_⟩
    · intro c hc
      simp at hc
    · intro b0 m0 h0
      rw [h] at h0
      simp only [Option.some.injEq, Prod.mk.injEq] at h0
      exact le_of_eq h0.2
  | cons c l' ih =>
    intro acc b m h
    rw [List.foldl_cons] at h
    obtain ⟨horig, hmin, hacc⟩ := ih (bestStep target acc c) b m h
    refine ⟨?_, ?_, ?_⟩
    · rcases horig with hae | ⟨hmem, ht⟩
      · obtain ⟨ho, _, _⟩ := bestStep_spec target acc c b m hae
        rcases ho with ho | ⟨rfl, ht⟩
        · exact Or.inl ho
        · exact Or.inr ⟨List.mem_cons_self _ _, ht⟩
      · exact Or.inr ⟨List.mem_cons_of_mem _ hmem, ht⟩
    · intro c' hc' t ht
      rcases List.mem_cons.1 hc' with rfl | hc'
      · cases hs : bestStep target acc c' with
        | none =>
          have := (bestStep_ne_none target acc c' hs).2
          rw [this] at ht
          cases ht
        | some pr =>
          obtain ⟨b0, m0⟩ := pr
          obtain ⟨_, hm0, _⟩ := bestStep_spec target acc c' b0 m0 hs
          exact le_trans (hacc b0 m0 hs) (hm0 t ht)
      · exact hmin c' hc' t ht
    · intro b1 m1 h1
      cases hs : bestStep target acc c with
      | none =>
        rw [(bestStep_ne_none target acc c hs).1] at h1
        cases h1
      | some pr =>
        obtain ⟨b0, m0⟩ := pr
        obtain ⟨_, _, hle⟩ := bestStep_spec target acc c b0 m0 hs
        exact le_trans (hacc b0 m0 hs) (hle b1 m1 h1)

/-- C2 amended, main theorem: whenever `getCoordAtTime` returns a
coordinate, that coordinate is a verbatim member of the track (altitude and
raw timestamp preserved) whose timestamp minimizes the absolute difference
to the target time over all timestamped samples — the held sample is the
closest one, not the last one at or before the queried time. -/
theorem positionAt_closest (coords : List KmlCoordinate) (offset vt : ℚ)
    (c : KmlCoordinate) (h : getCoordAtTime coords offset vt = some c) :
    c ∈ coords ∧ ∃ t, c.timestamp = some t ∧
      ∀ c' ∈ coords, ∀ t', c'.timestamp = some t' →
        |t - coordTargetTs coords offset vt| ≤ |t' - coordTargetTs coords offset vt| := by
  unfold getCoordAtTime at h
  by_cases hemp : coords.isEmpty
  · rw [if_pos hemp] at h; cases h
  · rw [if_neg hemp] at h
    by_cases hfind : (coords.find? (fun c => c.timestamp.isSome)).isSome
    · rw [if_pos hfind] at h
      unfold closestCoord at h
      cases hfold : coords.foldl (bestStep (coordTargetTs coords offset vt)) none with
      | none => rw [hfold] at h; cases h
      | some pr =>
        obtain ⟨b, m⟩ := pr
        rw [hfold] at h
        simp only [Option.map_some', Option.some.injEq] at h
        subst h
        obtain ⟨horig, hmin, _⟩ :=
          bestStep_fold_spec (coordTargetTs coords offset vt) coords none b m hfold
        rcases horig with hor | ⟨hmem, t, ht, hm⟩
        · cases hor
        · refine ⟨hmem, t, ht, ?_⟩
          intro c' hc' t' ht'
          rw [← hm]
          exact hmin c' hc' t' ht'
    · rw [if_neg hfind] at h; cases h

/-- C2 counterexample: with samples at 0 ms and 1000 ms and query time
900 ms, `getCoordAtTime` returns the sample with timestamp 1000 ms — a
sample whose timestamp is after the queried time, and not the last sample
with timestamp at most the queried time (which is the 0 ms sample). The
code keeps the coordinate minimizing `|timestamp - target|`
(videoOverlay.ts 770-781), not the held-last-known sample. -/
theorem positionAt_future_cex :
    getCoordAtTime pastFutureCoords 0 (9 / 10) = some ⟨1, 1, none, some 1000⟩ ∧
    coordTargetTs pastFutureCoords 0 (9 / 10) = 900 ∧
    (900 : ℚ) < 1000 := by
  refine ⟨?_, ?_, by norm_num⟩
  · norm_num [getCoordAtTime, pastFutureCoords, closestCoord, coordTargetTs,
      bestStep, tsVal, List.find?]
  · norm_num [coordTargetTs, pastFutureCoords, tsVal, List.find?]

/-- C2 witness: the main theorem applied to the concrete two-sample track,
discharging its hypothesis by evaluating `getCoordAtTime`. -/
theorem positionAt_closest_witness :
    getCoordAtTime pastFutureCoords 0 (9 / 10) = some ⟨1, 1, none, some 1000⟩ ∧
    ((⟨1, 1, none, some 1000⟩ : KmlCoordinate) ∈ pastFutureCoords ∧
      ∃ t, (⟨1, 1, none, some 1000⟩ : KmlCoordinate).timestamp = some t ∧
        ∀ c' ∈ pastFutureCoords, ∀ t', c'.timestamp = some t' →
          |t - coordTargetTs pastFutureCoords 0 (9 / 10)| ≤
            |t' - coordTargetTs pastFutureCoords 0 (9 / 10)|) := by
  have heval : getCoordAtTime pastFutureCoords 0 (9 / 10) =
      some ⟨1, 1, none, some 1000⟩ := by
    norm_num [getCoordAtTime, pastFutureCoords, closestCoord, coordTargetTs,
      bestStep, tsVal, List.find?]
  exact ⟨heval, positionAt_closest pastFutureCoords 0 (9 / 10) _ heval⟩

/-! ## Shared lemmas for the speed selector -/

/-- Coordinates with a positive timestamp are truthy. -/
lemma tsTruthy_of_pos (c : KmlCoordinate) (h1 : 0 < tsVal c)
    (h2 : c.timestamp.isSome = true) : tsTruthy c = true := by
  cases hts : c.timestamp with
  | none => rw [hts] at h2; cases h2
  | some t =>
    unfold tsVal at h1
    rw [hts] at h1
    simp only [Option.getD_some] at h1
    simp [tsTruthy, hts]
    exact ne_of_gt h1

/-- Indexing with `getD` inside the list bounds gives a member. -/
lemma getD_mem (l : List KmlCoordinate) (i : ℕ) (h : i < l.length) :
    l.getD i default ∈ l := by
  rw [List.getD_eq_getElem _ _ h]
  exact List.getElem_mem h

/-- Under `allPosTs`, `find?` for a truthy timestamp returns the head. -/
lemma find?_tsTruthy_head (c : KmlCoordinate) (cs : List KmlCoordinate)
    (h : allPosTs (c :: cs)) : (c :: cs).find? tsTruthy = some c := by
  have hc := h c (List.mem_cons_self _ _)
  exact List.find?_cons_of_pos _ (tsTruthy_of_pos c hc.1 hc.2)

/-- Under `allPosTs`, `find?` for a present timestamp returns the head. -/
lemma find?_isSome_head (c : KmlCoordinate) (cs : List KmlCoordinate)
    (h : allPosTs (c :: cs)) :
    (c :: cs).find? (fun c => c.timestamp.isSome) = some c := by
  have hc := h c (List.mem_cons_self _ _)
  exact List.find?_cons_of_pos _ hc.2

/-- The downward scan yields `p` when `p` satisfies the guard and no index
beyond `p` (up to the scan start) does. -/
lemma scanDown_eq_of_last (coords : List KmlCoordinate) (target : ℚ) (p : ℕ)
    (hok : okAt coords target p = true) :
    ∀ i, p ≤ i → (∀ j, j ≤ i → okAt coords target j = true → j ≤ p) →
      scanDown coords target i = p := by
  intro i
  induction i with
  | zero =>
    intro hpi _
    have : p = 0 := Nat.le_zero.1 hpi
    rw [this]
    rfl
  | succ i ih =>
    intro hpi hbound
    rw [scanDown]
    by_cases hsucc : okAt coords target (i + 1) = true
    · have h1 : i + 1 ≤ p := hbound (i + 1) le_rfl hsucc
      have h2 : p = i + 1 := le_antisymm hpi h1
      rw [if_pos hsucc, h2]
    · rw [if_neg hsucc]
      have hne : p ≠ i + 1 := by
        intro hcontra
        rw [hcontra] at hok
        exact hsucc hok
      exact ih (by omega) (fun j hj hokj => hbound j (by omega) hokj)

/-- The downward scan defaults to `0` when no index satisfies the guard. -/
lemma scanDown_eq_zero_of_none (coords : List KmlCoordinate) (target : ℚ) :
    ∀ i, (∀ j, j ≤ i → okAt coords target j = false) →
      scanDown coords target i = 0 := by
  intro i
  induction i with
  | zero => intro _; rfl
  | succ i ih =>
    intro hbound
    rw [scanDown]
    rw [if_neg (by rw [hbound (i + 1) le_rfl]; exact Bool.false_ne_true)]
    exact ih (fun j hj => hbound j (by omega))

/-- The fold keeps an accumulator that no later coordinate improves on. -/
lemma bestStep_foldl_keep (target : ℚ) :
    ∀ (l : List KmlCoordinate) (b : KmlCoordinate) (m : ℚ),
      (∀ c ∈ l, ∀ t, c.timestamp = some t → ¬(|t - target| < m)) →
      l.foldl (bestStep target) (some (b, m)) = some (b, m) := by
  intro l
  induction l with
  | nil => intro b m _; rfl
  | cons c l' ih =>
    intro b m hno
    rw [List.foldl_cons]
    cases hts : c.timestamp with
    | none =>
      rw [bestStep_no_ts target _ c hts]
      exact ih b m (fun c' hc' t ht => hno c' (List.mem_cons_of_mem _ hc') t ht)
    | some t =>
      rw [bestStep_keep target c b t m hts (hno c (List.mem_cons_self _ _) t hts)]
      exact ih b m (fun c' hc' t' ht' => hno c' (List.mem_cons_of_mem _ hc') t' ht')

/-! ## Numeric lemmas for the haversine geometry -/

/-- For two points on the same latitude, `haversineKm` reduces to
`6371 * 2 * arcsin (cos lat * sin (dLon / 2))` (in radians). -/
lemma haversineKm_same_lat (lat lon1 lon2 : ℝ)
    (hs0 : 0 ≤ Real.cos (lat * Real.pi / 180) *
      Real.sin ((lon2 - lon1) * Real.pi / 180 / 2))
    (hs1 : Real.cos (lat * Real.pi / 180) *
      Real.sin ((lon2 - lon1) * Real.pi / 180 / 2) < 1) :
    haversineKm lat lon1 lat lon2 =
      6371 * (2 * Real.arcsin (Real.cos (lat * Real.pi / 180) *
        Real.sin ((lon2 - lon1) * Real.pi / 180 / 2))) := by
  set s := Real.cos (lat * Real.pi / 180) *
    Real.sin ((lon2 - lon1) * Real.pi / 180 / 2) with hs_def
  unfold haversineKm
  simp only [sub_self, zero_mul, zero_div, Real.sin_zero, mul_zero, zero_add]
  have ha : Real.cos (lat * Real.pi / 180) * Real.cos (lat * Real.pi / 180) *
      Real.sin ((lon2 - lon1) * Real.pi / 180 / 2) *
      Real.sin ((lon2 - lon1) * Real.pi / 180 / 2) = s * s := by
    rw [hs_def]; ring
  rw [ha]
  have hss1 : s * s < 1 := by nlinarith
  have hsqrt : Real.sqrt (s * s) = s := Real.sqrt_mul_self hs0
  have hpos : 0 < Real.sqrt (1 - s * s) := Real.sqrt_pos.2 (by linarith)
  rw [hsqrt]
  unfold atan2
  rw [if_pos hpos]
  have harc : Real.arcsin s = Real.arctan (s / Real.sqrt (1 - s ^ 2)) :=
    Real.arcsin_eq_arctan ⟨by linarith, hs1⟩
  rw [show (1 : ℝ) - s * s = 1 - s ^ 2 by ring, ← harc]

/-- `arcsin` minorized by the identity on `(0, 1/2]`. -/
lemma arcsin_gt_self (s : ℝ) (h0 : 0 < s) (h1 : s ≤ 1 / 2) :
    s < Real.arcsin s := by
  have hpos : 0 < Real.arcsin s := Real.arcsin_pos.2 h0
  have hlt : Real.sin (Real.arcsin s) < Real.arcsin s := Real.sin_lt hpos
  rw [Real.sin_arcsin (by linarith) (by linarith)] at hlt
  exact hlt

/-- `arcsin` majorized by `s * (1 + s ^ 2)` on `(0, 1/2]`. -/
lemma arcsin_le_cubic (s : ℝ) (h0 : 0 < s) (h1 : s ≤ 1 / 2) :
    Real.arcsin s ≤ s * (1 + s ^ 2) := by
  set z := s * (1 + s ^ 2) with hz_def
  have hz0 : 0 < z := by positivity
  have hz1 : z ≤ 1 := by nlinarith
  have hsinz : z - z ^ 3 / 4 < Real.sin z := Real.sin_gt_sub_cube hz0 hz1
  have hu0 : (0 : ℝ) ≤ s ^ 2 := sq_nonneg s
  have hu : s ^ 2 ≤ 1 / 4 := by nlinarith
  have hcube4 : (1 + s ^ 2) ^ 3 ≤ 4 := by
    have : (1 + s ^ 2) ^ 3 ≤ (5 / 4 : ℝ) ^ 3 :=
      pow_le_pow_left₀ (by linarith) (by linarith) 3
    nlinarith
  have hzs : s ≤ z - z ^ 3 / 4 := by
    have hexp : z - z ^ 3 / 4 - s = s ^ 3 * (4 - (1 + s ^ 2) ^ 3) / 4 := by
      rw [hz_def]; ring
    have hnn : 0 ≤ s ^ 3 * (4 - (1 + s ^ 2) ^ 3) / 4 := by
      apply div_nonneg _ (by norm_num)
      exact mul_nonneg (le_of_lt (pow_pos h0 3)) (by linarith)
    linarith
  have hs_le : s ≤ Real.sin z := by linarith
  have hz_mem : z ∈ Set.Icc (-(Real.pi / 2)) (Real.pi / 2) := by
    constructor
    · have := Real.pi_pos
      linarith
    · have := Real.pi_gt_three
      linarith
  exact (Real.arcsin_le_iff_le_sin ⟨by linarith, by linarith⟩ hz_mem).2 hs_le

/-- Rational bounds on `cos (48 π / 180)`. -/
lemma cos_phi_bounds :
    (0.649 : ℝ) ≤ Real.cos (48 * Real.pi / 180) ∧
    Real.cos (48 * Real.pi / 180) ≤ 0.6792 := by
  have hpi_l := Real.pi_gt_d6
  have hpi_u := Real.pi_lt_d6
  set φ := 48 * Real.pi / 180 with hφ_def
  have hφl : (0.8377578 : ℝ) ≤ φ := by rw [hφ_def]; nlinarith
  have hφu : φ ≤ (0.8377582 : ℝ) := by rw [hφ_def]; nlinarith
  constructor
  · have := Real.one_sub_sq_div_two_le_cos (x := φ)
    nlinarith
  · have hid : Real.sin (φ / 2) ^ 2 = 1 / 2 - Real.cos (2 * (φ / 2)) / 2 :=
      Real.sin_sq_eq_half_sub (φ / 2)
    have h2 : 2 * (φ / 2) = φ := by ring
    rw [h2] at hid
    have h2l : (0.4188789 : ℝ) ≤ φ / 2 := by linarith
    have h2u : φ / 2 ≤ (0.4188791 : ℝ) := by linarith
    have hcube : (φ / 2) ^ 3 ≤ (0.4188791 : ℝ) ^ 3 :=
      pow_le_pow_left₀ (by linarith) h2u 3
    have hsin_gt : φ / 2 - (φ / 2) ^ 3 / 4 < Real.sin (φ / 2) :=
      Real.sin_gt_sub_cube (by linarith) (by linarith)
    have hsin_lb : (0.4005 : ℝ) < Real.sin (φ / 2) := by nlinarith
    nlinarith [sq_nonneg (Real.sin (φ / 2))]

/-- Rational bounds on `sin (π / 36000)` (half of 0.01° in radians). -/
lemma sin_x_bounds :
    (0.000087266 : ℝ) ≤ Real.sin (Real.pi / 36000) ∧
    Real.sin (Real.pi / 36000) ≤ 0.0000872665 := by
  have hpi_l := Real.pi_gt_d6
  have hpi_u := Real.pi_lt_d6
  have hx0 : (0 : ℝ) < Real.pi / 36000 := by positivity
  have hxl : (0.0000872664 : ℝ) ≤ Real.pi / 36000 := by nlinarith
  have hxu : Real.pi / 36000 ≤ (0.0000872665 : ℝ) := by nlinarith
  constructor
  · have hcube : (Real.pi / 36000) ^ 3 ≤ (0.0000872665 : ℝ) ^ 3 :=
      pow_le_pow_left₀ (by linarith) hxu 3
    have hgt : Real.pi / 36000 - (Real.pi / 36000) ^ 3 / 4 <
        Real.sin (Real.pi / 36000) :=
      Real.sin_gt_sub_cube hx0 (by linarith)
    nlinarith
  · have := Real.sin_lt hx0
    linarith

/-- The node pair selected for Scenario A: indices 0 and 1, 10 s apart. -/
lemma scenario_speed_sel :
    getSpeedSel scenarioCoords 0 5 =
      some (⟨48, 2, none, some 1000000⟩, ⟨48, 201 / 100, none, some 1010000⟩, 10) := by
  norm_num [getSpeedSel, scenarioCoords, scanDown, okAt, tsTruthy, tsVal, List.find?]

/-- The Scenario A speed value in closed form. -/
lemma scenario_speed_eq :
    getSpeedFromWorkspaceKml SpeedUnit.kmh scenarioCoords 0 5 =
      some (haversineKm 48 2 48 (201 / 100) / 10 * 3600) := by
  unfold getSpeedFromWorkspaceKml
  rw [scenario_speed_sel]
  simp only [Option.map_some', Option.some.injEq]
  unfold speedValue
  norm_num

/-- Rational bounds on the Scenario A speed: it lies strictly between 259
and 272 km/h. -/
lemma scenario_speed_bounds :
    optBetween 259 272 (getSpeedFromWorkspaceKml SpeedUnit.kmh scenarioCoords 0 5) := by
  rw [scenario_speed_eq]
  show (259 : ℝ) < haversineKm 48 2 48 (201 / 100) / 10 * 3600 ∧
    haversineKm 48 2 48 (201 / 100) / 10 * 3600 < 272
  have hc := cos_phi_bounds
  have hsx := sin_x_bounds
  have harg : ((201 / 100 : ℝ) - 2) * Real.pi / 180 / 2 = Real.pi / 36000 := by
    have h1 : ((201 / 100 : ℝ) - 2) = 1 / 100 := by norm_num
    rw [h1]
    ring
  have hsx0 : (0 : ℝ) ≤ Real.sin (Real.pi / 36000) := by linarith [hsx.1]
  have hc0 : (0 : ℝ) ≤ Real.cos (48 * Real.pi / 180) := by linarith [hc.1]
  have hs_lb : (0.0000566 : ℝ) ≤
      Real.cos (48 * Real.pi / 180) * Real.sin (Real.pi / 36000) := by
    have := mul_le_mul hc.1 hsx.1 (by norm_num) hc0
    nlinarith
  have hs_ub : Real.cos (48 * Real.pi / 180) * Real.sin (Real.pi / 36000) ≤
      (0.00005928 : ℝ) := by
    have := mul_le_mul hc.2 hsx.2 hsx0 (by norm_num)
    nlinarith
  have hs0 : (0 : ℝ) ≤ Real.cos (48 * Real.pi / 180) * Real.sin (Real.pi / 36000) :=
    mul_nonneg hc0 hsx0
  have hs1 : Real.cos (48 * Real.pi / 180) * Real.sin (Real.pi / 36000) < 1 := by
    linarith
  have hhav : haversineKm 48 2 48 (201 / 100) =
      6371 * (2 * Real.arcsin (Real.cos (48 * Real.pi / 180) *
        Real.sin (Real.pi / 36000))) := by
    have := haversineKm_same_lat 48 2 (201 / 100) (by rw [harg]; exact hs0)
      (by rw [harg]; exact hs1)
    rw [harg] at this
    exact this
  set s := Real.cos (48 * Real.pi / 180) * Real.sin (Real.pi / 36000) with hs_def
  have hs_pos : (0 : ℝ) < s := by linarith
  have harc_l : s < Real.arcsin s := arcsin_gt_self s hs_pos (by linarith)
  have harc_u : Real.arcsin s ≤ s * (1 + s ^ 2) := arcsin_le_cubic s hs_pos (by linarith)
  have harc_ub : Real.arcsin s ≤ (0.00005929 : ℝ) := by nlinarith
  rw [hhav]
  constructor
  · nlinarith
  · nlinarith

/-! ## Claim C1: the speed query -/

/-- C1 amended, main theorem. First conjunct (the contract): for a
fully-timestamped track, with `p` the last index whose timestamp is at most
the target, the speed query returns `undefined` when no following sample
exists or when the time difference to it is not positive, and otherwise
returns the haversine distance between samples `p` and `p+1` divided by
their time difference (`speedValue` is km/h, i.e. distance over hours).
Second conjunct: the `ms` unit divides the km/h value by 3.6. Third
conjunct (Scenario A, corrected): for the track with samples 10 s apart at
`(48, 2.0)` and `(48, 2.01)`, `SpeedAt(5000ms)` is a value strictly
between 259 and 272 km/h (approximately 268 km/h) — not approximately
27 km/h: 0.01° of longitude at latitude 48 is about 0.74 km, not 0.075 km. -/
theorem speedAt_spec :
    (∀ (unit : SpeedUnit) (coords : List KmlCoordinate) (offset vt : ℚ) (p : ℕ),
      allPosTs coords →
      isLastLE coords (kmlTarget coords offset vt) p →
      ((coords.length ≤ p + 1 →
        getSpeedFromWorkspaceKml unit coords offset vt = none) ∧
      (p + 1 < coords.length →
        tsVal (coords.getD (p + 1) default) - tsVal (coords.getD p default) ≤ 0 →
        getSpeedFromWorkspaceKml unit coords offset vt = none) ∧
      (p + 1 < coords.length →
        0 < tsVal (coords.getD (p + 1) default) - tsVal (coords.getD p default) →
        getSpeedFromWorkspaceKml unit coords offset vt =
          some (speedValue unit (coords.getD p default) (coords.getD (p + 1) default)
            ((tsVal (coords.getD (p + 1) default) -
              tsVal (coords.getD p default)) / 1000))))) ∧
    (∀ (a b : KmlCoordinate) (dt : ℚ),
      speedValue SpeedUnit.ms a b dt = speedValue SpeedUnit.kmh a b dt / 3.6) ∧
    optBetween 259 272 (getSpeedFromWorkspaceKml SpeedUnit.kmh scenarioCoords 0 5) := by
  refine ⟨?_, fun a b dt => rfl, scenario_speed_bounds⟩
  intro unit coords offset vt p hall hp
  obtain ⟨hplen, hpok, hpmax⟩ := hp
  cases coords with
  | nil => exact absurd hplen (by simp)
  | cons c0 cs =>
    have htarg : kmlTarget (c0 :: cs) offset vt =
        tsVal c0 + (vt + offset) * 1000 := rfl
    have hscan : scanDown (c0 :: cs) (tsVal c0 + (vt + offset) * 1000)
        ((c0 :: cs).length - 1) = p := by
      rw [← htarg]
      apply scanDown_eq_of_last _ _ p hpok
      · omega
      · intro j hj hokj
        exact hpmax j (by omega) hokj
    have hprev_mem : (c0 :: cs).getD p default ∈ (c0 :: cs) := getD_mem _ p hplen
    have htruthyp : tsTruthy ((c0 :: cs).getD p default) = true :=
      tsTruthy_of_pos _ (hall _ hprev_mem).1 (hall _ hprev_mem).2
    have hsel_eq : getSpeedSel (c0 :: cs) offset vt =
        (if p + 1 < (c0 :: cs).length then
          (if tsTruthy ((c0 :: cs).getD (p + 1) default) &&
              tsTruthy ((c0 :: cs).getD p default) then
            (if 0 < (tsVal ((c0 :: cs).getD (p + 1) default) -
                tsVal ((c0 :: cs).getD p default)) / 1000 then
              some ((c0 :: cs).getD p default, (c0 :: cs).getD (p + 1) default,
                (tsVal ((c0 :: cs).getD (p + 1) default) -
                  tsVal ((c0 :: cs).getD p default)) / 1000)
            else none)
          else none)
        else none) := by
      unfold getSpeedSel
      rw [if_neg (by simp)]
      rw [find?_tsTruthy_head c0 cs hall]
      simp only
      rw [hscan]
      rw [if_neg (by
        intro hcon
        have h2 : tsTruthy ((c0 :: cs).getD p default) = false := hcon
        rw [htruthyp] at h2
        exact Bool.noConfusion h2)]
    refine ⟨?_, ?_, ?_⟩
    · intro hge
      unfold getSpeedFromWorkspaceKml
      rw [hsel_eq, if_neg (by omega)]
      rfl
    · intro hlt hdle
      have hnext_mem : (c0 :: cs).getD (p + 1) default ∈ (c0 :: cs) :=
        getD_mem _ (p + 1) hlt
      have htruthyn : tsTruthy ((c0 :: cs).getD (p + 1) default) = true :=
        tsTruthy_of_pos _ (hall _ hnext_mem).1 (hall _ hnext_mem).2
      unfold getSpeedFromWorkspaceKml
      rw [hsel_eq, if_pos hlt, htruthyn, htruthyp]
      rw [if_pos (show (true && true) = true from rfl)]
      rw [if_neg (by
        intro hcon
        have : (0 : ℚ) < tsVal ((c0 :: cs).getD (p + 1) default) -
            tsVal ((c0 :: cs).getD p default) := by
          by_contra hno
          push_neg at hno
          have := div_nonpos_of_nonpos_of_nonneg hno (by norm_num : (0:ℚ) ≤ 1000)
          linarith
        linarith)]
      rfl
    · intro hlt hdpos
      have hnext_mem : (c0 :: cs).getD (p + 1) default ∈ (c0 :: cs) :=
        getD_mem _ (p + 1) hlt
      have htruthyn : tsTruthy ((c0 :: cs).getD (p + 1) default) = true :=
        tsTruthy_of_pos _ (hall _ hnext_mem).1 (hall _ hnext_mem).2
      unfold getSpeedFromWorkspaceKml
      rw [hsel_eq, if_pos hlt, htruthyn, htruthyp]
      rw [if_pos (show (true && true) = true from rfl)]
      rw [if_pos (div_pos hdpos (by norm_num))]
      rfl

/-- C1 counterexample (Scenario A's number): `SpeedAt(5000ms)` on the
Scenario A track is strictly between 259 and 272 km/h, hence not
approximately 27 km/h (here read as lying within 27 ± 10). -/
theorem speedAt_scenario_not_27 :
    optBetween 259 272 (getSpeedFromWorkspaceKml SpeedUnit.kmh scenarioCoords 0 5) ∧
    ¬ optBetween 17 37 (getSpeedFromWorkspaceKml SpeedUnit.kmh scenarioCoords 0 5) := by
  refine ⟨scenario_speed_bounds, ?_⟩
  intro h
  have hb := scenario_speed_bounds
  rw [scenario_speed_eq] at h hb
  have h1 : (259 : ℝ) < haversineKm 48 2 48 (201 / 100) / 10 * 3600 := hb.1
  have h2 : haversineKm 48 2 48 (201 / 100) / 10 * 3600 < 37 := h.2
  linarith

/-- C1 witness: the contract applied to the Scenario A track at the last
index `p = 0` (the only sample at or before the target), with every
hypothesis discharged by evaluation; conjoined with the corrected scenario
value. -/
theorem speedAt_spec_witness :
    allPosTs scenarioCoords ∧
    isLastLE scenarioCoords (kmlTarget scenarioCoords 0 5) 0 ∧
    (0 + 1 < scenarioCoords.length) ∧
    (0 < tsVal (scenarioCoords.getD (0 + 1) default) -
      tsVal (scenarioCoords.getD 0 default)) ∧
    getSpeedFromWorkspaceKml SpeedUnit.kmh scenarioCoords 0 5 =
      some (speedValue SpeedUnit.kmh (scenarioCoords.getD 0 default)
        (scenarioCoords.getD (0 + 1) default)
        ((tsVal (scenarioCoords.getD (0 + 1) default) -
          tsVal (scenarioCoords.getD 0 default)) / 1000)) := by
  have hall : allPosTs scenarioCoords := by
    norm_num [allPosTs, scenarioCoords, tsVal]
  have hlast : isLastLE scenarioCoords (kmlTarget scenarioCoords 0 5) 0 := by
    constructor
    · norm_num [scenarioCoords]
    constructor
    · norm_num [okAt, scenarioCoords, tsTruthy, tsVal, kmlTarget]
    · intro j hj hokj
      have hj2 : j < 2 := by simpa [scenarioCoords] using hj
      interval_cases j
      · omega
      · exfalso
        revert hokj
        norm_num [okAt, scenarioCoords, tsTruthy, tsVal, kmlTarget]
  have hlt : 0 + 1 < scenarioCoords.length := by norm_num [scenarioCoords]
  have hdpos : 0 < tsVal (scenarioCoords.getD (0 + 1) default) -
      tsVal (scenarioCoords.getD 0 default) := by
    norm_num [scenarioCoords, tsVal]
  exact ⟨hall, hlast, hlt, hdpos,
    (speedAt_spec.1 SpeedUnit.kmh scenarioCoords 0 5 0 hall hlast).2.2 hlt hdpos⟩

/-! ## Claim C10: queries before the track's start -/

/-- C10 amended, main theorem: for a sorted, fully-timestamped track whose
samples all lie strictly after the queried time, and whose first two
samples have a positive time difference, `getSpeedFromWorkspaceKml` falls
back to index `0` and returns the speed of the first segment (samples 0
and 1), and `getCoordAtTime` returns the first sample. -/
theorem query_before_start_spec (c0 c1 : KmlCoordinate) (rest : List KmlCoordinate)
    (unit : SpeedUnit) (offset vt t0 t1 : ℚ)
    (h0 : c0.timestamp = some t0) (h1 : c1.timestamp = some t1)
    (hall : allPosTs (c0 :: c1 :: rest))
    (hsort : sortedByTs (c0 :: c1 :: rest))
    (hbefore : kmlTarget (c0 :: c1 :: rest) offset vt < t0)
    (h01 : t0 < t1) :
    getSpeedFromWorkspaceKml unit (c0 :: c1 :: rest) offset vt =
      some (speedValue unit c0 c1 ((t1 - t0) / 1000)) ∧
    getCoordAtTime (c0 :: c1 :: rest) offset vt = some c0 := by
  have ht0 : tsVal c0 = t0 := by rw [tsVal, h0]; rfl
  have ht1 : tsVal c1 = t1 := by rw [tsVal, h1]; rfl
  have htarget : kmlTarget (c0 :: c1 :: rest) offset vt =
      tsVal c0 + (vt + offset) * 1000 := rfl
  have hge : ∀ c ∈ (c0 :: c1 :: rest), t0 ≤ tsVal c := by
    intro c hc
    rcases List.mem_cons.1 hc with rfl | hc'
    · rw [ht0]
    · rw [← ht0]
      exact (List.pairwise_cons.1 hsort).1 c hc'
  have hok : ∀ j, okAt (c0 :: c1 :: rest)
      (kmlTarget (c0 :: c1 :: rest) offset vt) j = false := by
    intro j
    unfold okAt
    by_cases hj : j < (c0 :: c1 :: rest).length
    · have hmem := getD_mem (c0 :: c1 :: rest) j hj
      have hle := hge _ hmem
      have hlt : kmlTarget (c0 :: c1 :: rest) offset vt <
          tsVal ((c0 :: c1 :: rest).getD j default) := lt_of_lt_of_le hbefore hle
      have hdec : decide (tsVal ((c0 :: c1 :: rest).getD j default) ≤
          kmlTarget (c0 :: c1 :: rest) offset vt) = false := by
        simp only [decide_eq_false_iff_not]
        exact not_le.2 hlt
      rw [hdec, Bool.and_false]
    · have : (c0 :: c1 :: rest).getD j default = default := by
        apply List.getD_eq_default
        omega
      rw [this]
      simp [tsTruthy, default]
  have hscan : scanDown (c0 :: c1 :: rest)
      (tsVal c0 + (vt + offset) * 1000) ((c0 :: c1 :: rest).length - 1) = 0 := by
    apply scanDown_eq_zero_of_none
    intro j _
    have := hok j
    rw [htarget] at this
    exact this
  have htruthy0 : tsTruthy c0 = true :=
    tsTruthy_of_pos c0 (hall c0 (List.mem_cons_self _ _)).1
      (hall c0 (List.mem_cons_self _ _)).2
  have htruthy1 : tsTruthy c1 = true :=
    tsTruthy_of_pos c1 (hall c1 (by simp)).1 (hall c1 (by simp)).2
  constructor
  · have hsel : getSpeedSel (c0 :: c1 :: rest) offset vt =
        some (c0, c1, (t1 - t0) / 1000) := by
      unfold getSpeedSel
      rw [if_neg (by simp)]
      rw [find?_tsTruthy_head c0 (c1 :: rest) hall]
      simp only
      rw [hscan]
      simp only [List.getD_cons_zero]
      rw [if_neg (by rw [htruthy0]; exact fun h => Bool.noConfusion h)]
      rw [if_pos (by simp : 0 + 1 < (c0 :: c1 :: rest).length)]
      simp only [List.getD_cons_succ, List.getD_cons_zero]
      rw [htruthy0, htruthy1]
      simp only [Bool.and_self, if_true]
      rw [ht0, ht1]
      rw [if_pos (div_pos (by linarith) (by norm_num))]
    unfold getSpeedFromWorkspaceKml
    rw [hsel]
    rfl
  · have htargets : coordTargetTs (c0 :: c1 :: rest) offset vt =
        tsVal c0 + (vt + offset) * 1000 := by
      unfold coordTargetTs
      rw [find?_isSome_head c0 (c1 :: rest) hall]
    have habs0 : |t0 - coordTargetTs (c0 :: c1 :: rest) offset vt| =
        t0 - coordTargetTs (c0 :: c1 :: rest) offset vt := by
      apply abs_of_pos
      rw [htargets, ← htarget]
      linarith
    have hfold : (c0 :: c1 :: rest).foldl
        (bestStep (coordTargetTs (c0 :: c1 :: rest) offset vt)) none =
        some (c0, |t0 - coordTargetTs (c0 :: c1 :: rest) offset vt|) := by
      rw [List.foldl_cons,
        bestStep_first (coordTargetTs (c0 :: c1 :: rest) offset vt) c0 t0 h0]
      apply bestStep_foldl_keep
      intro c hc t ht
      have hcge : t0 ≤ tsVal c := hge c (List.mem_cons_of_mem _ hc)
      have htv : tsVal c = t := by rw [tsVal, ht]; rfl
      rw [htv] at hcge
      have habs : |t - coordTargetTs (c0 :: c1 :: rest) offset vt| =
          t - coordTargetTs (c0 :: c1 :: rest) offset vt := by
        apply abs_of_pos
        rw [htargets, ← htarget]
        linarith
      rw [habs, habs0]
      intro hcon
      linarith
    unfold getCoordAtTime
    rw [if_neg (by simp)]
    rw [if_pos (by rw [find?_isSome_head c0 (c1 :: rest) hall]; rfl)]
    unfold closestCoord
    rw [hfold]
    rfl

/-- C10 counterexample: a track whose two samples share the timestamp
10000 ms, queried at 9000 ms (before the track's start): every timestamped
sample lies strictly after the queried time, yet `getSpeedFromWorkspaceKml`
returns `undefined` (the first segment's time difference is 0, videoOverlay.ts
972), refuting the claim that such queries never return `undefined`. -/
theorem query_before_start_undefined_cex :
    kmlTarget eqTsCoords (-1) 0 = 9000 ∧
    tsVal (eqTsCoords.getD 0 default) = 10000 ∧
    tsVal (eqTsCoords.getD 1 default) = 10000 ∧
    (9000 : ℚ) < 10000 ∧
    getSpeedFromWorkspaceKml SpeedUnit.kmh eqTsCoords (-1) 0 = none := by
  refine ⟨?_, ?_, ?_, by norm_num, ?_⟩
  · norm_num [kmlTarget, eqTsCoords, tsVal]
  · norm_num [eqTsCoords, tsVal]
  · norm_num [eqTsCoords, tsVal]
  · have hsel : getSpeedSel eqTsCoords (-1) 0 = none := by
      norm_num [getSpeedSel, eqTsCoords, scanDown, okAt, tsTruthy, tsVal, List.find?]
    unfold getSpeedFromWorkspaceKml
    rw [hsel]
    rfl

/-- C10 witness: the main theorem at a concrete sorted track (samples at
10000 ms and 20000 ms) queried 1 s before its start. -/
theorem query_before_start_spec_witness :
    ((⟨0, 0, none, some 10000⟩ : KmlCoordinate).timestamp = some 10000) ∧
    ((⟨1, 1, none, some 20000⟩ : KmlCoordinate).timestamp = some 20000) ∧
    allPosTs [⟨0, 0, none, some 10000⟩, ⟨1, 1, none, some 20000⟩] ∧
    sortedByTs [⟨0, 0, none, some 10000⟩, ⟨1, 1, none, some 20000⟩] ∧
    kmlTarget [⟨0, 0, none, some 10000⟩, ⟨1, 1, none, some 20000⟩] (-1) 0 < 10000 ∧
    (10000 : ℚ) < 20000 ∧
    (getSpeedFromWorkspaceKml SpeedUnit.kmh
        [⟨0, 0, none, some 10000⟩, ⟨1, 1, none, some 20000⟩] (-1) 0 =
      some (speedValue SpeedUnit.kmh ⟨0, 0, none, some 10000⟩
        ⟨1, 1, none, some 20000⟩ ((20000 - 10000) / 1000)) ∧
    getCoordAtTime [⟨0, 0, none, some 10000⟩, ⟨1, 1, none, some 20000⟩] (-1) 0 =
      some ⟨0, 0, none, some 10000⟩) :=
  ⟨rfl, rfl, by norm_num [allPosTs, tsVal, tsTruthy],
    by norm_num [sortedByTs, tsVal],
    by norm_num [kmlTarget, tsVal], by norm_num,
    query_before_start_spec ⟨0, 0, none, some 10000⟩ ⟨1, 1, none, some 20000⟩ []
      SpeedUnit.kmh (-1) 0 10000 20000 rfl rfl
      (by norm_num [allPosTs, tsVal, tsTruthy])
      (by norm_num [sortedByTs, tsVal])
      (by norm_num [kmlTarget, tsVal]) (by norm_num)⟩

end Trace
